import Mathlib

/-!
# Verification of the CricFantasy contest-join / team-validation / scoring pipeline

Shallow embedding of the fantasy-cricket web application.  The frontend
code (team selection, client-side validation, submission flow) is
translated from `src/frontend/src/components/Navbar.js` (the `CreateTeam`
component) and `src/unnamed/part_000` (the `Contests` page).  The
server-side components (Team Validator, Contest Join Orchestrator,
Scoring Engine) are not part of the repository sources; they are
modelled from the specification, as marked on each definition.

JavaScript numbers are IEEE-754 binary64 values; they are embedded as
rationals together with an explicit round-to-nearest-even rounding
function (`fpRound`), so that the budget arithmetic of the source is
reproduced exactly.
-/

namespace CF

/-- A roster player as delivered by `GET /players/:matchId` and used by the
`CreateTeam` component (`Navbar.js`): `id`, `name`, `role`, `team`,
`base_price`.  The decimal `base_price` is embedded as a rational. -/
structure Player where
  id : Nat
  name : String
  role : String
  team : String
  base_price : ℚ
deriving DecidableEq, Repr

/-- The `CreateTeam` component state touched by selection:
`selectedPlayers`, `captain`, `viceCaptain` (`Navbar.js`). -/
structure SelState where
  selectedPlayers : List Player
  captain : Option Player
  viceCaptain : Option Player
deriving DecidableEq, Repr

/-- Initial `CreateTeam` state: `useState([])`, `useState(null)`,
`useState(null)` (`Navbar.js`). -/
def initSel : SelState := ⟨[], none, none⟩

/-- `togglePlayer` from `Navbar.js` lines 148-156:
if the player is already selected (matched by `id`) it is removed and a
matching captain / vice-captain designation is cleared; otherwise it is
appended only when fewer than 11 players are selected. -/
def togglePlayer (player : Player) (s : SelState) : SelState :=
  if (s.selectedPlayers.find? (fun p => p.id == player.id)).isSome then
    { selectedPlayers := s.selectedPlayers.filter (fun p => !(p.id == player.id)),
      captain := match s.captain with
        | some c => if c.id == player.id then none else some c
        | none => none,
      viceCaptain := match s.viceCaptain with
        | some v => if v.id == player.id then none else some v
        | none => none }
  else if s.selectedPlayers.length < 11 then
    { s with selectedPlayers := s.selectedPlayers ++ [player] }
  else
    s

/-- The selection-related UI events of `CreateTeam` (`Navbar.js`): the
checkbox toggles a player; the `C` / `VC` buttons set the captain /
vice-captain and are only rendered for a selected player (the row is
guarded by `isSelected`). -/
inductive UiEvent where
  | toggle (p : Player)
  | setCap (p : Player)
  | setVice (p : Player)
deriving DecidableEq, Repr

/-- One UI event applied to the selection state.  The `C` / `VC`
buttons exist only on rows whose player is currently selected
(`isSelected` guard in `Navbar.js`), so `setCap` / `setVice` on an
unselected player leaves the state unchanged. -/
def applyEvent (e : UiEvent) (s : SelState) : SelState :=
  match e with
  | .toggle p => togglePlayer p s
  | .setCap p =>
      if (s.selectedPlayers.find? (fun q => q.id == p.id)).isSome then
        { s with captain := some p }
      else s
  | .setVice p =>
      if (s.selectedPlayers.find? (fun q => q.id == p.id)).isSome then
        { s with viceCaptain := some p }
      else s

/-- A sequence of UI events run from a state. -/
def runEvents (es : List UiEvent) (s : SelState) : SelState :=
  es.foldl (fun s e => applyEvent e s) s

/-! ## Payloads and the server-side model

The request payload shapes are from `Navbar.js` (`handleSubmit`).  The
server behaviour behind `POST /teams` and `POST /contests/:id/join` is
not in the repository sources and is modelled from the specification
(§3, §4.1, §4.3). -/

/-- One entry of `teamPayload.players` built in `handleSubmit`
(`Navbar.js` lines 175-179): `player_id`, `is_captain`, `is_vice_captain`. -/
structure TeamPlayerPayload where
  player_id : Nat
  is_captain : Bool
  is_vice_captain : Bool
deriving DecidableEq, Repr

/-- The `POST /teams` payload built in `handleSubmit` (`Navbar.js`
lines 172-180). -/
structure TeamPayload where
  match_id : Nat
  team_name : String
  players : List TeamPlayerPayload
deriving DecidableEq, Repr

/-- `p.id === captain?.id` from `Navbar.js`: comparison of a player id
with an optional designation (false when the designation is `null`). -/
def optIdEq (pid : Nat) (o : Option Player) : Bool :=
  match o with
  | some c => pid == c.id
  | none => false

/-- One entry of the payload's `players` array (`Navbar.js` lines
175-179): the player's id with captaincy flags computed by id
comparison with the designations. -/
def payloadEntry (cap vc : Option Player) (p : Player) : TeamPlayerPayload :=
  ⟨p.id, optIdEq p.id cap, optIdEq p.id vc⟩

/-- The payload construction of `handleSubmit` (`Navbar.js` lines
172-180): each selected player is flagged captain / vice-captain by id
comparison with the designations. -/
def mkPayload (mid : Nat) (tn : String) (sel : List Player)
    (cap vc : Option Player) : TeamPayload :=
  ⟨mid, tn, sel.map (payloadEntry cap vc)⟩

/-- Rejection reasons of the server-side Team Validator, modelled from
the spec (§4.1): composition (check 1), captaincy (check 2), budget
(check 3). -/
inductive TeamReason where
  | composition
  | captaincy
  | budget
deriving DecidableEq, Repr

/-- Rejection reasons of the Contest Join Orchestrator, modelled from
the spec (§4.3): contest not open, contest full, insufficient balance,
duplicate entry. -/
inductive JoinReason where
  | notOpen
  | contestFull
  | insufficientBalance
  | duplicateEntry
deriving DecidableEq, Repr

/-- Contest status, from the spec data model (§3):
{open, in-progress, completed}. -/
inductive CStatus where
  | opened
  | inProgress
  | completed
deriving DecidableEq, Repr

/-- A contest record: entry fee, prize pool, maximum entrant count,
current joined count, status (spec §3; displayed by `src/unnamed/part_000`
as `entry_fee`, `prize_pool`, `max_users`, `joined_users`, `status`). -/
structure Contest where
  entry_fee : ℚ
  prize_pool : ℚ
  max_users : Nat
  joined_users : Nat
  status : CStatus
deriving DecidableEq, Repr

/-- A stored fantasy team record (created by `POST /teams`). -/
structure TeamRec where
  id : Nat
  payload : TeamPayload
deriving DecidableEq, Repr

/-- A contest entry linking a user and a team (spec §3). -/
structure Entry where
  userId : Nat
  teamId : Nat
deriving DecidableEq, Repr

/-- A wallet transaction kind (spec §3). -/
inductive TxnKind where
  | credit
  | debit
deriving DecidableEq, Repr

/-- An append-only wallet transaction record (spec §3). -/
structure Txn where
  userId : Nat
  amount : ℚ
  kind : TxnKind
deriving DecidableEq, Repr

/-- Server-side state for one match and one contest, modelled from the
spec data model (§3): the player roster, the contest record, stored
teams, contest entries, per-user wallet balances and the transaction
ledger. -/
structure Backend where
  roster : List Player
  contest : Contest
  teams : List TeamRec
  nextTeamId : Nat
  entries : List Entry
  wallets : List (Nat × ℚ)
  transactions : List Txn
deriving DecidableEq, Repr

/-- Price lookup in the roster by player id (used by the modelled
validator to price a payload reference). -/
def rosterPrice (roster : List Player) (pid : Nat) : Option ℚ :=
  (roster.find? (fun p => p.id == pid)).map (·.base_price)

/-- Modelled from the spec: the Team Validator (§4.1).  Checks, in
order, first failure wins: (1) exactly 11 distinct player references,
all belonging to the match roster; (2) captain and vice-captain are
both members of the selected 11 and are distinct individuals (exactly
one player carries each flag, and they differ); (3) sum of base credit
costs ≤ 100, compared with exact (rational) arithmetic. -/
def validateTeam (payload : TeamPayload) (roster : List Player) : Option TeamReason :=
  if ¬(payload.players.length = 11 ∧ (payload.players.map (·.player_id)).Nodup ∧
        ∀ i ∈ payload.players.map (·.player_id), (rosterPrice roster i).isSome) then
    some .composition
  else
    match payload.players.filter (·.is_captain),
          payload.players.filter (·.is_vice_captain) with
    | [c], [v] =>
        if c.player_id = v.player_id then some .captaincy
        else if 100 <
            (payload.players.map (fun pp => (rosterPrice roster pp.player_id).getD 0)).sum then
          some .budget
        else none
    | _, _ => some .captaincy

/-- Modelled from the spec: the team-creation endpoint `POST /teams`
(spec §3, §4.1; the backend itself is not in the sources).  A valid
team is persisted with a fresh id; an invalid one is rejected and the
state is unchanged. -/
def postTeam (payload : TeamPayload) (b : Backend) : Except TeamReason (Backend × Nat) :=
  match validateTeam payload b.roster with
  | some r => .error r
  | none =>
      .ok ({ b with teams := b.teams ++ [⟨b.nextTeamId, payload⟩],
                    nextTeamId := b.nextTeamId + 1 }, b.nextTeamId)

/-- Wallet balance of a user (0 when absent). -/
def getBalance (b : Backend) (uid : Nat) : ℚ :=
  ((b.wallets.find? (fun w => w.1 == uid)).map (·.2)).getD 0

/-- Debit a user's wallet by an amount. -/
def debitWallet (ws : List (Nat × ℚ)) (uid : Nat) (amt : ℚ) : List (Nat × ℚ) :=
  ws.map (fun w => if w.1 == uid then (w.1, w.2 - amt) else w)

/-- Modelled from the spec: the failure conditions of the Contest Join
Orchestrator (§4.3), checked in the specified order — contest status
must be open, joined count below the maximum, wallet balance at least
the entry fee, and no existing entry for the same user in this contest
(§3: one entry per (user, contest) pair). -/
def joinCheck (uid : Nat) (b : Backend) : Option JoinReason :=
  if b.contest.status ≠ .opened then some .notOpen
  else if ¬(b.contest.joined_users < b.contest.max_users) then some .contestFull
  else if getBalance b uid < b.contest.entry_fee then some .insufficientBalance
  else if b.entries.any (fun e => e.userId == uid) then some .duplicateEntry
  else none

/-- Modelled from the spec: the join endpoint `POST /contests/:id/join`
(§4.3).  On success it atomically debits the wallet by the entry fee,
appends the debit transaction, increments the joined count and creates
the contest entry; on failure the state is unchanged. -/
def joinContest (uid tid : Nat) (b : Backend) : Except JoinReason Backend :=
  match joinCheck uid b with
  | some r => .error r
  | none =>
      .ok { b with
        wallets := debitWallet b.wallets uid b.contest.entry_fee,
        transactions := b.transactions ++ [⟨uid, b.contest.entry_fee, .debit⟩],
        contest := { b.contest with joined_users := b.contest.joined_users + 1 },
        entries := b.entries ++ [⟨uid, tid⟩] }

/-- A sequence of join attempts (user id, team id pairs); a failed
attempt leaves the state unchanged. -/
def applyJoinSeq (reqs : List (Nat × Nat)) (b : Backend) : Backend :=
  reqs.foldl (fun b r =>
    match joinContest r.1 r.2 b with
    | .ok b2 => b2
    | .error _ => b) b

/-! ## The submission flow -/

/-- The HTTP requests issued by `handleSubmit` (`Navbar.js` lines
182-186): `POST /teams` with the team payload, then
`POST /contests/:contestId/join` with contest id and team id. -/
inductive Request where
  | postTeamReq (payload : TeamPayload)
  | postJoinReq (contest_id team_id : Nat)
deriving DecidableEq, Repr

/-- A rejection surfaced by `handleSubmit` as a destructive toast: the
two client-side messages (`Select exactly 11 players`,
`Select captain and vice-captain`) or the server-side detail of a
failed request (`error.response?.data?.detail`). -/
inductive RejectReason where
  | notEleven
  | captainMissing
  | team (r : TeamReason)
  | join (r : JoinReason)
deriving DecidableEq, Repr

/-- The user-visible outcome of `handleSubmit`: the success toast (and
navigation to `/my-contests`) or an error toast. -/
inductive Outcome where
  | success
  | toastError (r : RejectReason)
deriving DecidableEq, Repr

/-- Result of one `handleSubmit` call: the server state afterwards, the
requests actually issued (in order), and the outcome shown to the user. -/
structure SubmitResult where
  backend : Backend
  requests : List Request
  outcome : Outcome
deriving DecidableEq, Repr

/-- `handleSubmit` from `Navbar.js` lines 161-193: reject unless
exactly 11 players are selected; reject unless captain and
vice-captain are set; then `POST /teams` followed by
`POST /contests/:id/join`, with any request failure caught and shown
as an error toast — a failure of the join request does not undo the
already-created team. -/
def handleSubmit (uid mid cid : Nat) (tn : String) (sel : List Player)
    (cap vc : Option Player) (b : Backend) : SubmitResult :=
  if sel.length ≠ 11 then
    ⟨b, [], .toastError .notEleven⟩
  else if cap.isNone || vc.isNone then
    ⟨b, [], .toastError .captainMissing⟩
  else
    let payload := mkPayload mid tn sel cap vc
    match postTeam payload b with
    | .error r => ⟨b, [.postTeamReq payload], .toastError (.team r)⟩
    | .ok (b1, tid) =>
        match joinContest uid tid b1 with
        | .error j =>
            ⟨b1, [.postTeamReq payload, .postJoinReq cid tid], .toastError (.join j)⟩
        | .ok b2 =>
            ⟨b2, [.postTeamReq payload, .postJoinReq cid tid], .success⟩

/-! ## IEEE-754 binary64 arithmetic

JavaScript numbers are IEEE-754 binary64 values.  Every finite double
is an integer multiple of `2 ^ (-1074)`; a JavaScript number is
therefore embedded as that integer multiple (its value scaled by
`2 ^ 1074`), so the whole arithmetic lives in `ℤ`/`ℕ`.  The arithmetic
of the source (`+`, `-` on numbers) is exact integer arithmetic on the
common scale followed by `fpRoundZ`, the round-to-nearest,
ties-to-even rounding to 53 significant bits (with the subnormal
quantum clamped at `2 ^ (-1074)`).  The model covers the finite range
(no overflow to infinity), which contains every value arising in the
budget computation. -/

/-- `2 ^ n`, by structural recursion (reducible by kernel and
elaborator alike, unlike large `Nat.pow` exponents). -/
def twoPow : Nat → Nat
  | 0 => 1
  | n + 1 => 2 * twoPow n

/-- Fuelled binary logarithm: `natLog2Go fuel n` is `⌊log₂ n⌋` for
`1 ≤ n`, provided `fuel` bounds the recursion depth. -/
def natLog2Go (fuel : Nat) (n : Nat) : Nat :=
  match fuel with
  | 0 => 0
  | fuel' + 1 => if n < 2 then 0 else natLog2Go fuel' (n / 2) + 1

/-- `⌊log₂ n⌋` for `1 ≤ n` (the fuel `n` always suffices). -/
def natLog2 (n : Nat) : Nat := natLog2Go n n

/-- Round a scaled value `z` to the nearest integer multiple of the
quantum `Q`, ties to the even multiple. -/
def roundToQuantum (z : ℤ) (Q : ℕ) : ℤ :=
  let q0 := Int.fdiv z (Q : ℤ)
  let r := z - q0 * (Q : ℤ)
  if 2 * r < (Q : ℤ) then q0 * (Q : ℤ)
  else if (Q : ℤ) < 2 * r then (q0 + 1) * (Q : ℤ)
  else if q0 % 2 = 0 then q0 * (Q : ℤ) else (q0 + 1) * (Q : ℤ)

/-- Binary64 rounding on the scaled integers: a value of scaled
magnitude `m` lies in the binade of exponent `natLog2 m - 1074`, so its
rounding quantum (one unit in the last place of a 53-bit significand,
clamped at the subnormal quantum `2 ^ (-1074)`) is `2 ^ (natLog2 m - 52)`
scaled units — the truncated `Nat` subtraction implements the clamp. -/
def fpRoundZ (z : ℤ) : ℤ :=
  roundToQuantum z (twoPow (natLog2 z.natAbs - 52))

/-- JavaScript `+` on numbers: exact sum on the common scale, then
binary64 rounding. -/
def fpAddZ (a b : ℤ) : ℤ := fpRoundZ (a + b)

/-- JavaScript `-` on numbers: exact difference on the common scale,
then binary64 rounding. -/
def fpSubZ (a b : ℤ) : ℤ := fpRoundZ (a - b)

/-- Round the nonnegative rational `a / b` to the nearest binary64
value (scaled): the same round-to-nearest-even at the quantum of the
value's binade, computed on integers. -/
def posToFp (a b : ℕ) : ℤ :=
  let N := a * twoPow 1074
  let Q := twoPow (natLog2 (N / b) - 52)
  let n0 := N / (b * Q)
  let r := N - n0 * (b * Q)
  if 2 * r < b * Q then ((n0 * Q : ℕ) : ℤ)
  else if b * Q < 2 * r then (((n0 + 1) * Q : ℕ) : ℤ)
  else if n0 % 2 = 0 then ((n0 * Q : ℕ) : ℤ) else (((n0 + 1) * Q : ℕ) : ℤ)

/-- The binary64 value actually stored for a decimal (for example a
`base_price` parsed from JSON): the nearest double, scaled. -/
def ratToFp (q : ℚ) : ℤ :=
  if q.num < 0 then -(posToFp q.num.natAbs q.den) else posToFp q.num.toNat q.den

/-- `totalCredits` from `Navbar.js` line 158:
`selectedPlayers.reduce((sum, p) => sum + p.base_price, 0)` — a left
fold of JavaScript additions starting at `0`, the prices being the
stored doubles of the decimal base prices. -/
def totalCredits (sel : List Player) : ℤ :=
  sel.foldl (fun sum p => fpAddZ sum (ratToFp p.base_price)) 0

/-- `creditsLeft` from `Navbar.js` line 159: `100 - totalCredits` in
JavaScript arithmetic (the literal `100` is the double `100`). -/
def creditsLeft (sel : List Player) : ℤ :=
  fpSubZ (posToFp 100 1) (totalCredits sel)

/-- The budget conjunct of the submit-button guard (`Navbar.js` line
270): submission is allowed, with respect to budget, unless
`creditsLeft < 0`. -/
def budgetAllowsSubmit (sel : List Player) : Bool :=
  !(decide (creditsLeft sel < 0))

/-- The exact (rational) sum of the selected players' base credit
costs — the comparison the spec prescribes. -/
def totalCreditsExact (sel : List Player) : ℚ :=
  (sel.map (·.base_price)).sum

/-! ## Scoring Engine (modelled from the spec) -/

/-- Raw per-player match statistics (spec §4.2 scoring table inputs). -/
structure RawStats where
  runs : Nat
  fours : Nat
  sixes : Nat
  wickets : Nat
  maidens : Nat
  catches : Nat
  stumpings : Nat
  runouts : Nat
deriving DecidableEq, Repr

/-- Modelled from the spec: the per-player Scoring Engine (§4.2).
1 point per run, +1 per four, +2 per six, +8 one-time at 50+ runs,
+16 one-time at 100+ runs (in addition), 25 per wicket, 12 per maiden
over, +4 one-time at 3 wickets, +8 one-time at 5 wickets, 8 per catch,
12 per stumping, 6 per run-out. -/
def computePlayerPoints (s : RawStats) : ℕ :=
  s.runs * 1 + s.fours * 1 + s.sixes * 2 +
    (if 50 ≤ s.runs then 8 else 0) + (if 100 ≤ s.runs then 16 else 0) +
    s.wickets * 25 + s.maidens * 12 +
    (if 3 ≤ s.wickets then 4 else 0) + (if 5 ≤ s.wickets then 8 else 0) +
    s.catches * 8 + s.stumpings * 12 + s.runouts * 6

/-- Modelled from the spec: the per-player multiplier of the aggregate
team score (§4.2): 2.0 for the captain, 1.5 for the vice-captain, 1.0
otherwise. -/
def multiplier (pp : TeamPlayerPayload) : ℚ :=
  if pp.is_captain then 2 else if pp.is_vice_captain then 3 / 2 else 1

/-- Modelled from the spec: the aggregate team score (§4.2), computed
as a running accumulation over the stored team's players of the
player's base points weighted by the captaincy multiplier, in exact
rational arithmetic. -/
def computeTeamScore (team : List TeamPlayerPayload) (pts : Nat → ℚ) : ℚ :=
  team.foldl (fun acc pp =>
    acc + (if pp.is_captain then 2 * pts pp.player_id
           else if pp.is_vice_captain then 3 / 2 * pts pp.player_id
           else pts pp.player_id)) 0

/-! ## Selection-state invariants -/

/-- If a player is not found in the list by id, no member has that id. -/
lemma not_mem_map_id_of_find?_eq_none {l : List Player} {i : Nat}
    (h : l.find? (fun q => q.id == i) = none) : i ∉ l.map Player.id := by
  intro hmem
  obtain ⟨q, hq, hqe⟩ := List.mem_map.1 hmem
  have := List.find?_eq_none.1 h q hq
  simp [hqe] at this

/-- If a player with id `i` is in the list, the find-by-id succeeds. -/
lemma find?_isSome_of_mem_map_id {l : List Player} {i : Nat}
    (h : i ∈ l.map Player.id) : (l.find? (fun q => q.id == i)).isSome := by
  obtain ⟨q, hq, hqe⟩ := List.mem_map.1 h
  rcases hf : l.find? (fun q => q.id == i) with _ | r
  · have := List.find?_eq_none.1 hf q hq
    simp [hqe] at this
  · rw [hf]
    rfl

/-- If the find-by-id succeeds, the id belongs to the mapped id list. -/
lemma mem_map_id_of_find?_isSome {l : List Player} {i : Nat}
    (h : (l.find? (fun q => q.id == i)).isSome) : i ∈ l.map Player.id := by
  obtain ⟨q, hfind⟩ := Option.isSome_iff_exists.1 h
  have hqmem := List.mem_of_find?_eq_some hfind
  have hpred : (q.id == i) = true := by
    have := List.find?_some hfind
    simpa using this
  exact List.mem_map.2 ⟨q, hqmem, by simpa using hpred⟩

/-- `togglePlayer` preserves the selection invariant: at most 11
selected players, no id selected twice. -/
lemma togglePlayer_preserves_inv (p : Player) (s : SelState)
    (h1 : s.selectedPlayers.length ≤ 11)
    (h2 : (s.selectedPlayers.map Player.id).Nodup) :
    (togglePlayer p s).selectedPlayers.length ≤ 11 ∧
      ((togglePlayer p s).selectedPlayers.map Player.id).Nodup := by
  unfold togglePlayer
  split
  · refine ⟨le_trans (List.length_filter_le _ _) h1, h2.sublist ?_⟩
    exact (List.filter_sublist _).map _
  · split
    · rename_i hnf hlen
      have hmem : p.id ∉ s.selectedPlayers.map Player.id := by
        apply not_mem_map_id_of_find?_eq_none
        simpa [Option.isNone_iff_eq_none] using hnf
      constructor
      · simp only [List.length_append, List.length_cons, List.length_nil]
        omega
      · simp only [List.map_append, List.map_cons, List.map_nil]
        simp [List.nodup_append, h2, hmem]
    · exact ⟨h1, h2⟩

/-- The selection invariant holds along any toggle sequence. -/
lemma foldl_toggle_inv (ps : List Player) (s : SelState)
    (h1 : s.selectedPlayers.length ≤ 11)
    (h2 : (s.selectedPlayers.map Player.id).Nodup) :
    (ps.foldl (fun s p => togglePlayer p s) s).selectedPlayers.length ≤ 11 ∧
      ((ps.foldl (fun s p => togglePlayer p s) s).selectedPlayers.map Player.id).Nodup := by
  induction ps generalizing s with
  | nil => exact ⟨h1, h2⟩
  | cons p ps ih =>
      obtain ⟨g1, g2⟩ := togglePlayer_preserves_inv p s h1 h2
      exact ih _ g1 g2

/-- C9: for every sequence of `togglePlayer` operations starting from
the empty selection, the selected-players list contains at most 11
entries and never contains the same player id twice. -/
theorem c9_selection_invariant (ps : List Player) :
    (ps.foldl (fun s p => togglePlayer p s) initSel).selectedPlayers.length ≤ 11 ∧
      ((ps.foldl (fun s p => togglePlayer p s) initSel).selectedPlayers.map
        Player.id).Nodup :=
  foldl_toggle_inv ps initSel (by simp [initSel]) (by simp [initSel])

/-- The captaincy-membership invariant of the selection state: each
designation is `none` or carries the id of a selected player. -/
def capInv (s : SelState) : Prop :=
  (∀ c, s.captain = some c → c.id ∈ s.selectedPlayers.map Player.id) ∧
    (∀ v, s.viceCaptain = some v → v.id ∈ s.selectedPlayers.map Player.id)

/-- Membership by id survives removing a different id. -/
lemma mem_map_id_filter {l : List Player} {i j : Nat}
    (h : i ∈ l.map Player.id) (hne : i ≠ j) :
    i ∈ (l.filter (fun q => !(q.id == j))).map Player.id := by
  obtain ⟨q, hq, hqe⟩ := List.mem_map.1 h
  exact List.mem_map.2 ⟨q, List.mem_filter.2 ⟨hq, by simp [hqe, hne]⟩, hqe⟩

/-- `togglePlayer` preserves the captaincy-membership invariant. -/
lemma togglePlayer_preserves_capInv (p : Player) (s : SelState)
    (h : capInv s) : capInv (togglePlayer p s) := by
  obtain ⟨hc, hv⟩ := h
  unfold togglePlayer capInv
  split
  · constructor
    · intro c hcEq
      rcases hsc : s.captain with _ | c0
      · simp [hsc] at hcEq
      · simp only [hsc] at hcEq
        split at hcEq
        · exact absurd hcEq (by simp)
        · rename_i hne
          cases hcEq
          exact mem_map_id_filter (hc _ hsc) (by simpa using hne)
    · intro v hvEq
      rcases hsv : s.viceCaptain with _ | v0
      · simp [hsv] at hvEq
      · simp only [hsv] at hvEq
        split at hvEq
        · exact absurd hvEq (by simp)
        · rename_i hne
          cases hvEq
          exact mem_map_id_filter (hv _ hsv) (by simpa using hne)
  · split
    · constructor
      · intro c hcEq
        have := hc c hcEq
        simpa using Or.inl this
      · intro v hvEq
        have := hv v hvEq
        simpa using Or.inl this
    · exact ⟨hc, hv⟩

/-- Every UI event preserves the captaincy-membership invariant. -/
lemma applyEvent_preserves_capInv (e : UiEvent) (s : SelState)
    (h : capInv s) : capInv (applyEvent e s) := by
  cases e with
  | toggle p => exact togglePlayer_preserves_capInv p s h
  | setCap p =>
      show capInv (if (s.selectedPlayers.find? (fun q => q.id == p.id)).isSome then
        { s with captain := some p } else s)
      split
      · rename_i hf
        refine ⟨?_, fun v hvEq => h.2 v hvEq⟩
        intro c hcEq
        have hpc : p = c := by simpa using hcEq
        subst hpc
        exact mem_map_id_of_find?_isSome hf
      · exact h
  | setVice p =>
      show capInv (if (s.selectedPlayers.find? (fun q => q.id == p.id)).isSome then
        { s with viceCaptain := some p } else s)
      split
      · rename_i hf
        refine ⟨fun c hcEq => h.1 c hcEq, ?_⟩
        intro v hvEq
        have hpv : p = v := by simpa using hvEq
        subst hpv
        exact mem_map_id_of_find?_isSome hf
      · exact h

/-- The captaincy-membership invariant holds along any event sequence. -/
lemma runEvents_capInv (es : List UiEvent) (s : SelState) (h : capInv s) :
    capInv (runEvents es s) := by
  induction es generalizing s with
  | nil => exact h
  | cons e es ih => exact ih _ (applyEvent_preserves_capInv e s h)

/-- Deselecting the player holding the captain designation clears it. -/
lemma togglePlayer_clears_captain (p : Player) (s : SelState) (c : Player)
    (hcEq : s.captain = some c) (hid : c.id = p.id)
    (hmem : c.id ∈ s.selectedPlayers.map Player.id) :
    (togglePlayer p s).captain = none := by
  unfold togglePlayer
  have hf : (s.selectedPlayers.find? (fun q => q.id == p.id)).isSome := by
    apply find?_isSome_of_mem_map_id
    rwa [hid] at hmem
  rw [if_pos hf]
  simp [hcEq, hid]

/-- Deselecting the player holding the vice-captain designation clears it. -/
lemma togglePlayer_clears_vice (p : Player) (s : SelState) (v : Player)
    (hvEq : s.viceCaptain = some v) (hid : v.id = p.id)
    (hmem : v.id ∈ s.selectedPlayers.map Player.id) :
    (togglePlayer p s).viceCaptain = none := by
  unfold togglePlayer
  have hf : (s.selectedPlayers.find? (fun q => q.id == p.id)).isSome := by
    apply find?_isSome_of_mem_map_id
    rwa [hid] at hmem
  rw [if_pos hf]
  simp [hvEq, hid]

/-- C10: after every sequence of selection UI events from the initial
state, the designated captain and vice-captain are each either null or
a member (by id) of the current selected-players list; and deselecting
a player who holds the captain or vice-captain designation clears that
designation. -/
theorem c10_captaincy_invariant (es : List UiEvent) :
    (∀ c, (runEvents es initSel).captain = some c →
      c.id ∈ (runEvents es initSel).selectedPlayers.map Player.id) ∧
    (∀ v, (runEvents es initSel).viceCaptain = some v →
      v.id ∈ (runEvents es initSel).selectedPlayers.map Player.id) ∧
    (∀ p c, (runEvents es initSel).captain = some c → c.id = p.id →
      (togglePlayer p (runEvents es initSel)).captain = none) ∧
    (∀ p v, (runEvents es initSel).viceCaptain = some v → v.id = p.id →
      (togglePlayer p (runEvents es initSel)).viceCaptain = none) := by
  have hinv : capInv (runEvents es initSel) :=
    runEvents_capInv es initSel (by constructor <;> simp [initSel])
  refine ⟨hinv.1, hinv.2, ?_, ?_⟩
  · intro p c hcEq hid
    exact togglePlayer_clears_captain p _ c hcEq hid (hinv.1 c hcEq)
  · intro p v hvEq hid
    exact togglePlayer_clears_vice p _ v hvEq hid (hinv.2 v hvEq)

/-! ## Concrete fixtures -/

/-- A roster player with the given id and base price. -/
def mkPl (i : Nat) (pr : ℚ) : Player := ⟨i, "Player", "batsman", "IND", pr⟩

/-- Events for the C10 witness: select player 1, make them captain and
vice-captain. -/
def evsW : List UiEvent :=
  [.toggle (mkPl 1 9), .setCap (mkPl 1 9), .setVice (mkPl 1 9)]

/-- Witness for C10 at a concrete input: after selecting player 1 and
designating them captain and vice-captain, the designated id is
selected, and toggling the player off clears both designations. -/
theorem c10_witness :
    (mkPl 1 9).id ∈ (runEvents evsW initSel).selectedPlayers.map Player.id ∧
    (togglePlayer (mkPl 1 9) (runEvents evsW initSel)).captain = none ∧
    (togglePlayer (mkPl 1 9) (runEvents evsW initSel)).viceCaptain = none :=
  ⟨(c10_captaincy_invariant evsW).1 (mkPl 1 9) (by decide),
   (c10_captaincy_invariant evsW).2.2.1 (mkPl 1 9) (mkPl 1 9) (by decide) rfl,
   (c10_captaincy_invariant evsW).2.2.2 (mkPl 1 9) (mkPl 1 9) (by decide) rfl⟩

/-- An 11-player roster with whole-credit prices summing to 98. -/
def rosterA : List Player :=
  [mkPl 1 9, mkPl 2 9, mkPl 3 9, mkPl 4 9, mkPl 5 9, mkPl 6 9,
   mkPl 7 9, mkPl 8 9, mkPl 9 9, mkPl 10 9, mkPl 11 8]

/-- An open contest with free spots. -/
def contestOpenA : Contest := ⟨5, 100, 10, 3, .opened⟩

/-- An open contest with no free spot (joined count at the maximum). -/
def contestFullA : Contest := ⟨5, 100, 10, 10, .opened⟩

/-- A backend whose contest has free spots and whose user 1 can afford
the entry fee. -/
def backendA : Backend := ⟨rosterA, contestOpenA, [], 0, [], [(1, 50)], []⟩

/-- A backend identical to `backendA` except that the contest is full. -/
def backendFull : Backend := ⟨rosterA, contestFullA, [], 0, [], [(1, 50)], []⟩

/-! ## C4: wrong team size is rejected client-side -/

/-- C4: for every candidate team whose selected-player count differs
from 11, `handleSubmit` rejects with the size error before issuing any
request, and the server state is unchanged. -/
theorem c4_wrong_size_rejected (uid mid cid : Nat) (tn : String) (sel : List Player)
    (cap vc : Option Player) (b : Backend) (h : sel.length ≠ 11) :
    handleSubmit uid mid cid tn sel cap vc b = ⟨b, [], .toastError .notEleven⟩ := by
  unfold handleSubmit
  rw [if_pos h]

/-- Witness for C4 at a concrete input: an empty selection is rejected
with the size error, no request is issued and the state is unchanged. -/
theorem c4_witness :
    handleSubmit 1 7 1 "My Warriors" [] none none backendA =
      ⟨backendA, [], .toastError .notEleven⟩ :=
  c4_wrong_size_rejected 1 7 1 "My Warriors" [] none none backendA (by decide)

/-! ## C6: aggregate team score -/

/-- A left fold of additions is the sum of the mapped list. -/
lemma foldl_add_eq_sum {α : Type} (l : List α) (f : α → ℚ) (a : ℚ) :
    l.foldl (fun acc x => acc + f x) a = a + (l.map f).sum := by
  induction l generalizing a with
  | nil => simp
  | cons x l ih => simp [ih, add_assoc]

/-- C6: for every stored team and every assignment of base points to
its players, the aggregate team score equals the sum over the players
of base points times a multiplier that is exactly 2 for the captain,
exactly 3/2 for the vice-captain and 1 for every other player. -/
theorem c6_team_score_multiplier (team : List TeamPlayerPayload) (pts : Nat → ℚ) :
    computeTeamScore team pts =
      (team.map (fun pp => pts pp.player_id * multiplier pp)).sum := by
  have hbody : ∀ pp : TeamPlayerPayload,
      (if pp.is_captain then 2 * pts pp.player_id
       else if pp.is_vice_captain then 3 / 2 * pts pp.player_id
       else pts pp.player_id) = pts pp.player_id * multiplier pp := by
    intro pp
    cases hc : pp.is_captain <;> cases hv : pp.is_vice_captain <;>
      simp [multiplier, hc, hv] <;> ring
  calc computeTeamScore team pts
      = team.foldl (fun acc pp => acc + pts pp.player_id * multiplier pp) 0 := by
        unfold computeTeamScore
        congr 1
        funext acc pp
        rw [hbody]
    _ = 0 + (team.map (fun pp => pts pp.player_id * multiplier pp)).sum :=
        foldl_add_eq_sum _ _ 0
    _ = (team.map (fun pp => pts pp.player_id * multiplier pp)).sum := zero_add _

/-! ## C7: per-player scoring example -/

/-- C7: the per-player scoring function applied to raw statistics of
45 runs, 3 fours, 1 six, 2 wickets and 1 catch returns exactly 108
base points (45 + 3 + 2 + 50 + 8, with no half-century bonus since
45 < 50). -/
theorem c7_scoring_example :
    computePlayerPoints ⟨45, 3, 1, 2, 0, 1, 0, 0⟩ = 108 := by decide

/-! ## C8: joined count is monotone and bounded -/

/-- A successful join requires a free spot. -/
lemma joinCheck_none_lt {uid : Nat} {b : Backend} (h : joinCheck uid b = none) :
    b.contest.joined_users < b.contest.max_users := by
  unfold joinCheck at h
  split at h
  · exact absurd h (by simp)
  · split at h
    · exact absurd h (by simp)
    · rename_i hcap
      omega

/-- C8: along any sequence of join attempts, the contest's joined
count only increases (failed attempts change nothing) and never
exceeds the maximum entrant count, so the remaining-spots value
`max_users - joined_users` stays nonnegative. -/
theorem c8_joined_monotone_bounded (reqs : List (Nat × Nat)) (b : Backend)
    (h : b.contest.joined_users ≤ b.contest.max_users) :
    b.contest.joined_users ≤ (applyJoinSeq reqs b).contest.joined_users ∧
    (applyJoinSeq reqs b).contest.joined_users ≤
      (applyJoinSeq reqs b).contest.max_users ∧
    0 ≤ ((applyJoinSeq reqs b).contest.max_users : ℤ) -
      ((applyJoinSeq reqs b).contest.joined_users : ℤ) := by
  induction reqs generalizing b with
  | nil =>
      have hnil : applyJoinSeq [] b = b := rfl
      rw [hnil]
      refine ⟨le_refl _, h, ?_⟩
      omega
  | cons r reqs ih =>
      rcases hjc : joinContest r.1 r.2 b with j | b2
      · have hstep : applyJoinSeq (r :: reqs) b = applyJoinSeq reqs b := by
          simp [applyJoinSeq, hjc]
        rw [hstep]
        exact ih b h
      · have hstep : applyJoinSeq (r :: reqs) b = applyJoinSeq reqs b2 := by
          simp [applyJoinSeq, hjc]
        have hchk : joinCheck r.1 b = none := by
          unfold joinContest at hjc
          split at hjc
          · exact absurd hjc (by simp)
          · assumption
        have hb2 : b2.contest.joined_users = b.contest.joined_users + 1 ∧
            b2.contest.max_users = b.contest.max_users := by
          unfold joinContest at hjc
          split at hjc
          · exact absurd hjc (by simp)
          · cases hjc
            exact ⟨rfl, rfl⟩
        have hlt := joinCheck_none_lt hchk
        have h2 : b2.contest.joined_users ≤ b2.contest.max_users := by omega
        obtain ⟨ih1, ih2, ih3⟩ := ih b2 h2
        rw [hstep]
        exact ⟨by omega, ih2, ih3⟩

/-- Join attempts used by the C8 witness: three users race for a
two-spot contest. -/
def reqsW : List (Nat × Nat) := [(1, 0), (2, 1), (3, 2)]

/-- Backend for the C8 witness: an open two-spot contest, three funded
users. -/
def backendW : Backend :=
  ⟨rosterA, ⟨5, 100, 2, 0, .opened⟩, [], 0, [], [(1, 10), (2, 10), (3, 10)], []⟩

/-- Witness for C8 at a concrete input: starting from a two-spot
contest with no entrant, after three join attempts the joined count
has not decreased and stays within the maximum. -/
theorem c8_witness :
    backendW.contest.joined_users ≤ (applyJoinSeq reqsW backendW).contest.joined_users ∧
    (applyJoinSeq reqsW backendW).contest.joined_users ≤
      (applyJoinSeq reqsW backendW).contest.max_users ∧
    0 ≤ ((applyJoinSeq reqsW backendW).contest.max_users : ℤ) -
      ((applyJoinSeq reqsW backendW).contest.joined_users : ℤ) :=
  c8_joined_monotone_bounded reqsW backendW (by decide)

/-! ## Characterization of the modelled Team Validator on frontend payloads -/

/-- The payload's `players` array is the mapped selection. -/
lemma payload_players (mid : Nat) (tn : String) (sel : List Player)
    (cap vc : Option Player) :
    (mkPayload mid tn sel cap vc).players = sel.map (payloadEntry cap vc) := rfl

/-- The payload has as many entries as there are selected players. -/
lemma payload_players_len (mid : Nat) (tn : String) (sel : List Player)
    (cap vc : Option Player) :
    (mkPayload mid tn sel cap vc).players.length = sel.length := by
  simp [mkPayload]

/-- The payload's player ids are the selected players' ids. -/
lemma payload_ids (mid : Nat) (tn : String) (sel : List Player)
    (cap vc : Option Player) :
    (mkPayload mid tn sel cap vc).players.map (·.player_id) = sel.map Player.id := by
  simp only [mkPayload, List.map_map]
  rfl

/-- When the composition check (1) passes, the validator proceeds to
the captaincy and budget checks. -/
lemma validateTeam_eq_of_check1 (payload : TeamPayload) (roster : List Player)
    (h11 : payload.players.length = 11)
    (hnd : (payload.players.map (·.player_id)).Nodup)
    (hmem : ∀ i ∈ payload.players.map (·.player_id), (rosterPrice roster i).isSome) :
    validateTeam payload roster =
      match payload.players.filter (·.is_captain),
            payload.players.filter (·.is_vice_captain) with
      | [c], [v] =>
          if c.player_id = v.player_id then some .captaincy
          else if 100 < (payload.players.map
              (fun pp => (rosterPrice roster pp.player_id).getD 0)).sum then
            some .budget
          else none
      | _, _ => some .captaincy := by
  unfold validateTeam
  rw [if_neg (not_not_intro ⟨h11, hnd, hmem⟩)]

/-- The captain-flagged payload entries are exactly the selected
players whose id matches the designated captain's. -/
lemma filter_captain (sel : List Player) (c : Player) (vc : Option Player) :
    (sel.map (payloadEntry (some c) vc)).filter (·.is_captain) =
      (sel.filter (fun q => q.id == c.id)).map (payloadEntry (some c) vc) := by
  rw [List.filter_map]
  rfl

/-- The vice-captain-flagged payload entries are exactly the selected
players whose id matches the designated vice-captain's. -/
lemma filter_vice (sel : List Player) (v : Player) (cap : Option Player) :
    (sel.map (payloadEntry cap (some v))).filter (·.is_vice_captain) =
      (sel.filter (fun q => q.id == v.id)).map (payloadEntry cap (some v)) := by
  rw [List.filter_map]
  rfl

/-- Filtering by an id that no member carries gives the empty list. -/
lemma filter_id_nil {l : List Player} {i : Nat} (h : i ∉ l.map Player.id) :
    l.filter (fun p => p.id == i) = [] := by
  rw [List.filter_eq_nil_iff]
  intro q hq
  simp only [beq_iff_eq]
  intro he
  exact h (List.mem_map.2 ⟨q, hq, he⟩)

/-- With distinct ids, filtering by a present id gives a singleton. -/
lemma filter_id_singleton {l : List Player} {i : Nat}
    (hnd : (l.map Player.id).Nodup) (hmem : i ∈ l.map Player.id) :
    ∃ q, q ∈ l ∧ q.id = i ∧ l.filter (fun p => p.id == i) = [q] := by
  induction l with
  | nil => simp at hmem
  | cons a l ih =>
      simp only [List.map_cons, List.nodup_cons] at hnd
      rw [List.map_cons] at hmem
      rcases List.mem_cons.1 hmem with hia | hil
      · refine ⟨a, List.mem_cons_self a l, hia.symm, ?_⟩
        rw [List.filter_cons, if_pos (by simp [hia])]
        have : l.filter (fun p => p.id == i) = [] := by
          apply filter_id_nil
          rw [hia]
          exact hnd.1
        rw [this]
      · have hne : ¬(a.id == i) = true := by
          simp only [beq_iff_eq]
          intro he
          exact hnd.1 (he ▸ hil)
        obtain ⟨q, hq, hqi, hfil⟩ := ih hnd.2 hil
        exact ⟨q, List.mem_cons_of_mem a hq, hqi,
          by rw [List.filter_cons, if_neg hne, hfil]⟩

/-- Pricing the payload through the roster recovers the exact sum of
the selected players' base prices. -/
lemma payload_price_sum (mid : Nat) (tn : String) (sel : List Player)
    (cap vc : Option Player) (roster : List Player)
    (hros : ∀ p ∈ sel, rosterPrice roster p.id = some p.base_price) :
    ((mkPayload mid tn sel cap vc).players.map
      (fun pp => (rosterPrice roster pp.player_id).getD 0)).sum =
      totalCreditsExact sel := by
  unfold totalCreditsExact
  simp only [mkPayload, List.map_map]
  congr 1
  apply List.map_congr_left
  intro p hp
  simp [payloadEntry, Function.comp, hros p hp]

/-- On a valid designation (captain and vice-captain selected and
distinct), the modelled validator reduces to the budget check. -/
lemma validateTeam_designation_ok (mid : Nat) (tn : String) (sel : List Player)
    (c v : Player) (roster : List Player)
    (h11 : sel.length = 11) (hnd : (sel.map Player.id).Nodup)
    (hros : ∀ p ∈ sel, rosterPrice roster p.id = some p.base_price)
    (hcm : c.id ∈ sel.map Player.id) (hvm : v.id ∈ sel.map Player.id)
    (hcv : c.id ≠ v.id) :
    validateTeam (mkPayload mid tn sel (some c) (some v)) roster =
      if 100 < totalCreditsExact sel then some .budget else none := by
  have hmem : ∀ i ∈ (mkPayload mid tn sel (some c) (some v)).players.map (·.player_id),
      (rosterPrice roster i).isSome := by
    rw [payload_ids]
    intro i hi
    obtain ⟨p, hp, hpe⟩ := List.mem_map.1 hi
    rw [← hpe, hros p hp]
    rfl
  rw [validateTeam_eq_of_check1 _ _ (by rw [payload_players_len]; exact h11)
    (by rw [payload_ids]; exact hnd) hmem]
  obtain ⟨qc, hqc, hqci, hfc⟩ := filter_id_singleton hnd hcm
  obtain ⟨qv, hqv, hqvi, hfv⟩ := filter_id_singleton hnd hvm
  have hsum := payload_price_sum mid tn sel (some c) (some v) roster hros
  simp only [payload_players] at hsum ⊢
  rw [filter_captain, filter_vice, hfc, hfv]
  simp only [List.map_cons, List.map_nil]
  rw [if_neg (by simp [payloadEntry, hqci, hqvi, hcv])]
  simp only [hsum]

/-- On an invalid designation (captain or vice-captain not selected,
or equal), the modelled validator rejects with the captaincy reason. -/
lemma validateTeam_bad_designation (mid : Nat) (tn : String) (sel : List Player)
    (c v : Player) (roster : List Player)
    (h11 : sel.length = 11) (hnd : (sel.map Player.id).Nodup)
    (hmem : ∀ i ∈ sel.map Player.id, (rosterPrice roster i).isSome)
    (hbad : ¬(c.id ∈ sel.map Player.id ∧ v.id ∈ sel.map Player.id ∧ c.id ≠ v.id)) :
    validateTeam (mkPayload mid tn sel (some c) (some v)) roster =
      some .captaincy := by
  rw [validateTeam_eq_of_check1 _ _ (by rw [payload_players_len]; exact h11)
    (by rw [payload_ids]; exact hnd) (by rw [payload_ids]; exact hmem)]
  simp only [payload_players]
  rw [filter_captain, filter_vice]
  by_cases hcm : c.id ∈ sel.map Player.id
  · by_cases hvm : v.id ∈ sel.map Player.id
    · have hcv : c.id = v.id := by
        by_contra hne
        exact hbad ⟨hcm, hvm, hne⟩
      obtain ⟨qc, hqc, hqci, hfc⟩ := filter_id_singleton hnd hcm
      obtain ⟨qv, hqv, hqvi, hfv⟩ := filter_id_singleton hnd hvm
      rw [hfc, hfv]
      simp only [List.map_cons, List.map_nil]
      rw [if_pos (by simp [payloadEntry, hqci, hqvi, hcv])]
    · rw [filter_id_nil hvm]
      obtain ⟨qc, hqc, hqci, hfc⟩ := filter_id_singleton hnd hcm
      rw [hfc]
      simp only [List.map_cons, List.map_nil]
  · rw [filter_id_nil hcm]
    simp only [List.map_nil]

/-- When the same player is designated captain and vice-captain, the
modelled validator rejects with the captaincy reason. -/
lemma validateTeam_cap_eq_vice (mid : Nat) (tn : String) (sel : List Player)
    (p : Player) (roster : List Player)
    (h11 : sel.length = 11) (hnd : (sel.map Player.id).Nodup)
    (hmem : ∀ i ∈ sel.map Player.id, (rosterPrice roster i).isSome) :
    validateTeam (mkPayload mid tn sel (some p) (some p)) roster =
      some .captaincy :=
  validateTeam_bad_designation mid tn sel p p roster h11 hnd hmem (by simp)

/-! ## Characterization of the submission flow -/

/-- With 11 players selected but captain or vice-captain unset,
`handleSubmit` rejects client-side with the captain message. -/
lemma handleSubmit_missing_designation (uid mid cid : Nat) (tn : String)
    (sel : List Player) (cap vc : Option Player) (b : Backend)
    (h11 : sel.length = 11) (h : cap.isNone || vc.isNone) :
    handleSubmit uid mid cid tn sel cap vc b = ⟨b, [], .toastError .captainMissing⟩ := by
  unfold handleSubmit
  rw [if_neg (by simp [h11]), if_pos h]

/-- When the server-side validator rejects the payload, `handleSubmit`
surfaces the reason and the server state is unchanged; the
team-creation request was issued. -/
lemma handleSubmit_postTeam_error (uid mid cid : Nat) (tn : String)
    (sel : List Player) (c v : Player) (b : Backend) (r : TeamReason)
    (h11 : sel.length = 11)
    (hval : validateTeam (mkPayload mid tn sel (some c) (some v)) b.roster = some r) :
    handleSubmit uid mid cid tn sel (some c) (some v) b =
      ⟨b, [.postTeamReq (mkPayload mid tn sel (some c) (some v))],
        .toastError (.team r)⟩ := by
  unfold handleSubmit
  rw [if_neg (by simp [h11]), if_neg (by simp)]
  simp only [postTeam, hval]

/-- When the team is created but the join request fails, `handleSubmit`
surfaces the join failure while the created team persists; nothing is
rolled back. -/
lemma handleSubmit_join_error (uid mid cid : Nat) (tn : String)
    (sel : List Player) (c v : Player) (b : Backend) (j : JoinReason)
    (h11 : sel.length = 11)
    (hval : validateTeam (mkPayload mid tn sel (some c) (some v)) b.roster = none)
    (hjoin : joinCheck uid b = some j) :
    handleSubmit uid mid cid tn sel (some c) (some v) b =
      ⟨{ b with
          teams := b.teams ++ [⟨b.nextTeamId, mkPayload mid tn sel (some c) (some v)⟩],
          nextTeamId := b.nextTeamId + 1 },
        [.postTeamReq (mkPayload mid tn sel (some c) (some v)),
         .postJoinReq cid b.nextTeamId],
        .toastError (.join j)⟩ := by
  unfold handleSubmit
  rw [if_neg (by simp [h11]), if_neg (by simp)]
  have hjoin1 : joinCheck uid { b with
      teams := b.teams ++ [⟨b.nextTeamId, mkPayload mid tn sel (some c) (some v)⟩],
      nextTeamId := b.nextTeamId + 1 } = some j := hjoin
  simp only [postTeam, hval, joinContest, hjoin1]

/-! ## C1: the create-team-and-join flow is not atomic -/

/-- C1 (amended): `handleSubmit` issues team creation and contest join
as two separate sequential requests with no rollback — client-side
validation failures leave all state unchanged, but when the contest
join fails after the team creation succeeded, the created team
persists (only the wallet debit, joined-count increment and entry are
absent) and an error toast is shown. -/
theorem c1_join_failure_keeps_team (uid mid cid : Nat) (tn : String)
    (sel : List Player) (c v : Player) (b : Backend) (j : JoinReason)
    (h11 : sel.length = 11)
    (hval : validateTeam (mkPayload mid tn sel (some c) (some v)) b.roster = none)
    (hjoin : joinCheck uid b = some j) :
    handleSubmit uid mid cid tn sel (some c) (some v) b =
      ⟨{ b with
          teams := b.teams ++ [⟨b.nextTeamId, mkPayload mid tn sel (some c) (some v)⟩],
          nextTeamId := b.nextTeamId + 1 },
        [.postTeamReq (mkPayload mid tn sel (some c) (some v)),
         .postJoinReq cid b.nextTeamId],
        .toastError (.join j)⟩ :=
  handleSubmit_join_error uid mid cid tn sel c v b j h11 hval hjoin

/-- The modelled validator accepts the concrete valid team over the
full contest's roster. -/
lemma validateTeam_rosterA_none :
    validateTeam (mkPayload 7 "My Warriors" rosterA (some (mkPl 1 9)) (some (mkPl 2 9)))
      backendFull.roster = none := by
  rw [validateTeam_designation_ok 7 "My Warriors" rosterA (mkPl 1 9) (mkPl 2 9)
    backendFull.roster (by decide) (by decide) (by decide) (by decide) (by decide)
    (by decide)]
  rw [if_neg (by norm_num [totalCreditsExact, rosterA, mkPl])]

/-- Counterexample to C1 as stated: at a concrete input the join step
fails (contest full) after the team-creation step succeeded, yet the
created team persists — the state is not as if the call never
happened. -/
theorem c1_counterexample :
    (handleSubmit 1 7 1 "My Warriors" rosterA (some (mkPl 1 9)) (some (mkPl 2 9))
        backendFull).outcome = .toastError (.join .contestFull) ∧
    (handleSubmit 1 7 1 "My Warriors" rosterA (some (mkPl 1 9)) (some (mkPl 2 9))
        backendFull).backend.teams ≠ backendFull.teams := by
  have h := handleSubmit_join_error 1 7 1 "My Warriors" rosterA (mkPl 1 9) (mkPl 2 9)
    backendFull .contestFull (by decide) validateTeam_rosterA_none (by decide)
  rw [h]
  exact ⟨rfl, by simp [backendFull]⟩

/-- Witness for C1 (amended) at the concrete input: the full result of
the failed join after a successful team creation. -/
theorem c1_witness :
    handleSubmit 1 7 1 "My Warriors" rosterA (some (mkPl 1 9)) (some (mkPl 2 9))
        backendFull =
      ⟨{ backendFull with
          teams := backendFull.teams ++ [⟨backendFull.nextTeamId,
            mkPayload 7 "My Warriors" rosterA (some (mkPl 1 9)) (some (mkPl 2 9))⟩],
          nextTeamId := backendFull.nextTeamId + 1 },
        [.postTeamReq (mkPayload 7 "My Warriors" rosterA (some (mkPl 1 9)) (some (mkPl 2 9))),
         .postJoinReq 1 backendFull.nextTeamId],
        .toastError (.join .contestFull)⟩ :=
  c1_join_failure_keeps_team 1 7 1 "My Warriors" rosterA (mkPl 1 9) (mkPl 2 9)
    backendFull .contestFull (by decide) validateTeam_rosterA_none (by decide)

/-! ## C2: captain = vice-captain is not rejected client-side -/

/-- C2 (amended): a team of 11 whose captain equals its vice-captain
passes the client-side checks and is sent for creation with that
player flagged as both captain and vice-captain; the rejection reason
comes from the server-side validator (captaincy check), is surfaced as
an error toast, and the server state is unchanged. -/
theorem c2_captain_eq_vice_sent (uid mid cid : Nat) (tn : String) (sel : List Player)
    (p : Player) (b : Backend)
    (h11 : sel.length = 11) (hnd : (sel.map Player.id).Nodup)
    (hmem : ∀ i ∈ sel.map Player.id, (rosterPrice b.roster i).isSome) :
    handleSubmit uid mid cid tn sel (some p) (some p) b =
      ⟨b, [.postTeamReq (mkPayload mid tn sel (some p) (some p))],
        .toastError (.team .captaincy)⟩ :=
  handleSubmit_postTeam_error uid mid cid tn sel p p b .captaincy h11
    (validateTeam_cap_eq_vice mid tn sel p b.roster h11 hnd hmem)

/-- Counterexample to C2 as stated: a concrete team of exactly 11
players with captain = vice-captain is NOT withheld — `handleSubmit`
issues a request (the team is sent for creation). -/
theorem c2_counterexample :
    rosterA.length = 11 ∧
    (handleSubmit 1 7 1 "My Warriors" rosterA (some (mkPl 1 9)) (some (mkPl 1 9))
      backendA).requests ≠ [] := by
  refine ⟨by decide, ?_⟩
  simp only [handleSubmit]
  rw [if_neg (by decide), if_neg (by decide)]
  split
  · simp
  · split <;> simp

/-- Witness for C2 (amended) at the concrete input: the duplicated
designation is sent and the server-side captaincy rejection is
surfaced. -/
theorem c2_witness :
    handleSubmit 1 7 1 "My Warriors" rosterA (some (mkPl 1 9)) (some (mkPl 1 9)) backendA =
      ⟨backendA,
        [.postTeamReq (mkPayload 7 "My Warriors" rosterA (some (mkPl 1 9)) (some (mkPl 1 9)))],
        .toastError (.team .captaincy)⟩ :=
  c2_captain_eq_vice_sent 1 7 1 "My Warriors" rosterA (mkPl 1 9) backendA
    (by decide) (by decide) (by decide)

/-! ## C5: validation order and first-failure reporting -/

/-- The three validation checks named by the specification, in order. -/
inductive CheckKind where
  | size
  | captaincy
  | budget
deriving DecidableEq, Repr

/-- The check that a surfaced rejection reason reports (join-stage
failures are not validation failures). -/
def kindOf : RejectReason → Option CheckKind
  | .notEleven => some .size
  | .captainMissing => some .captaincy
  | .team .composition => some .size
  | .team .captaincy => some .captaincy
  | .team .budget => some .budget
  | .join _ => none

/-- A valid captain/vice-captain designation: both set, both members
of the selection (by id), distinct. -/
def designationValid (sel : List Player) (cap vc : Option Player) : Bool :=
  match cap, vc with
  | some c, some v =>
      decide (c.id ∈ sel.map Player.id) && decide (v.id ∈ sel.map Player.id) &&
        decide (c.id ≠ v.id)
  | _, _ => false

/-- This definition follows the claim's words: the first failing check
among (1) exactly 11 players, (2) captain/vice-captain designation,
(3) budget (exact arithmetic), in that order. -/
def specFirstFailure (sel : List Player) (cap vc : Option Player) : Option CheckKind :=
  if sel.length ≠ 11 then some .size
  else if designationValid sel cap vc then
    (if 100 < totalCreditsExact sel then some .budget else none)
  else some .captaincy

/-- C5: the validation pipeline applies its checks in the stated order
— size, captaincy, budget — and the rejection surfaced by
`handleSubmit` reports the first check that fails (with no state
change); in particular a team failing both the size and the captaincy
check is rejected with the size reason. -/
theorem c5_ordered_first_failure (uid mid cid : Nat) (tn : String) (sel : List Player)
    (cap vc : Option Player) (b : Backend) (k : CheckKind)
    (hnd : (sel.map Player.id).Nodup)
    (hros : ∀ p ∈ sel, rosterPrice b.roster p.id = some p.base_price)
    (hk : specFirstFailure sel cap vc = some k) :
    ∃ r, (handleSubmit uid mid cid tn sel cap vc b).outcome = .toastError r ∧
      kindOf r = some k ∧ (handleSubmit uid mid cid tn sel cap vc b).backend = b := by
  unfold specFirstFailure at hk
  by_cases h11 : sel.length ≠ 11
  · rw [if_pos h11] at hk
    cases hk
    have hsub : handleSubmit uid mid cid tn sel cap vc b = ⟨b, [], .toastError .notEleven⟩ := by
      unfold handleSubmit
      rw [if_pos h11]
    exact ⟨.notEleven, by rw [hsub], rfl, by rw [hsub]⟩
  · rw [if_neg h11] at hk
    push_neg at h11
    have hmem : ∀ i ∈ sel.map Player.id, (rosterPrice b.roster i).isSome := by
      intro i hi
      obtain ⟨p, hp, hpe⟩ := List.mem_map.1 hi
      rw [← hpe, hros p hp]
      rfl
    by_cases hdes : designationValid sel cap vc = true
    · rw [if_pos hdes] at hk
      rcases cap with _ | c
      · simp [designationValid] at hdes
      rcases vc with _ | v
      · simp [designationValid] at hdes
      simp only [designationValid, Bool.and_eq_true, decide_eq_true_eq] at hdes
      obtain ⟨⟨hcm, hvm⟩, hcv⟩ := hdes
      by_cases hbud : 100 < totalCreditsExact sel
      · rw [if_pos hbud] at hk
        cases hk
        have hval : validateTeam (mkPayload mid tn sel (some c) (some v)) b.roster =
            some .budget := by
          rw [validateTeam_designation_ok mid tn sel c v b.roster h11 hnd hros hcm hvm hcv,
            if_pos hbud]
        have hsub := handleSubmit_postTeam_error uid mid cid tn sel c v b .budget h11 hval
        exact ⟨.team .budget, by rw [hsub], rfl, by rw [hsub]⟩
      · rw [if_neg hbud] at hk
        exact absurd hk (by simp)
    · rw [if_neg hdes] at hk
      cases hk
      rcases cap with _ | c
      · have hsub := handleSubmit_missing_designation uid mid cid tn sel none vc b h11
          (by simp)
        exact ⟨.captainMissing, by rw [hsub], rfl, by rw [hsub]⟩
      rcases vc with _ | v
      · have hsub := handleSubmit_missing_designation uid mid cid tn sel (some c) none b h11
          (by simp)
        exact ⟨.captainMissing, by rw [hsub], rfl, by rw [hsub]⟩
      · have hbad : ¬(c.id ∈ sel.map Player.id ∧ v.id ∈ sel.map Player.id ∧
            c.id ≠ v.id) := by
          rintro ⟨h1, h2, h3⟩
          exact hdes (by simp [designationValid, h1, h2, h3])
        have hval := validateTeam_bad_designation mid tn sel c v b.roster h11 hnd hmem hbad
        have hsub := handleSubmit_postTeam_error uid mid cid tn sel c v b .captaincy h11 hval
        exact ⟨.team .captaincy, by rw [hsub], rfl, by rw [hsub]⟩

/-- A 5-player selection: fails both the size check and the captaincy
check. -/
def selShort : List Player := [mkPl 1 9, mkPl 2 9, mkPl 3 9, mkPl 4 9, mkPl 5 9]

/-- Witness for C5 at a concrete input: a team failing both the size
and the captaincy check is rejected with the size reason, with no
state change. -/
theorem c5_witness :
    ∃ r, (handleSubmit 1 7 1 "My Warriors" selShort none none backendA).outcome =
        .toastError r ∧
      kindOf r = some .size ∧
      (handleSubmit 1 7 1 "My Warriors" selShort none none backendA).backend = backendA :=
  c5_ordered_first_failure 1 7 1 "My Warriors" selShort none none backendA .size
    (by decide) (by decide) (by decide)

/-! ## C3: exactness properties of the binary64 budget arithmetic -/

/-- `twoPow` is the power function. -/
lemma twoPow_eq (n : ℕ) : twoPow n = 2 ^ n := by
  induction n with
  | zero => rfl
  | succ n ih => rw [twoPow, ih, pow_succ]; ring

/-- `twoPow` is positive. -/
lemma twoPow_pos (n : ℕ) : 0 < twoPow n := by
  rw [twoPow_eq]
  exact Nat.pos_pow_of_pos n (by norm_num)

/-- The fuelled logarithm is below `j` whenever `n < 2 ^ (j + 1)`,
regardless of the fuel. -/
lemma natLog2Go_le (fuel : ℕ) : ∀ n j : ℕ, n < 2 ^ (j + 1) → natLog2Go fuel n ≤ j := by
  induction fuel with
  | zero => intro n j _; exact Nat.zero_le j
  | succ fuel ih =>
      intro n j hn
      rw [natLog2Go]
      split
      · exact Nat.zero_le j
      · rename_i hge
        rcases j with _ | j'
        · omega
        · have hdiv : n / 2 < 2 ^ (j' + 1) := by
            rw [Nat.div_lt_iff_lt_mul (by norm_num)]
            calc n < 2 ^ (j' + 1 + 1) := hn
              _ = 2 ^ (j' + 1) * 2 := by rw [pow_succ]
          have := ih (n / 2) j' hdiv
          omega

/-- `natLog2 n ≤ j` whenever `n < 2 ^ (j + 1)`. -/
lemma natLog2_le {n j : ℕ} (h : n < 2 ^ (j + 1)) : natLog2 n ≤ j :=
  natLog2Go_le n n j h

/-- Rounding to a quantum that already divides the value is exact. -/
lemma roundToQuantum_exact (z : ℤ) (Q : ℕ) (hQ : 0 < Q) (hdvd : (Q : ℤ) ∣ z) :
    roundToQuantum z Q = z := by
  obtain ⟨m, hm⟩ := hdvd
  subst hm
  have hQ' : (Q : ℤ) ≠ 0 := by exact_mod_cast hQ.ne'
  simp only [roundToQuantum, Int.mul_fdiv_cancel_left m hQ']
  rw [if_pos]
  · ring
  · have : (Q : ℤ) * m - m * (Q : ℤ) = 0 := by ring
    rw [this]
    simpa using hQ

/-- Binary64 rounding is exact on any value that is a multiple of
`2 ^ t` and below `2 ^ (53 + t)` in magnitude (it has at most 53
significant bits). -/
lemma fpRoundZ_exact (z : ℤ) (t : ℕ) (hdvd : (2 : ℤ) ^ t ∣ z)
    (hlt : z.natAbs < 2 ^ (53 + t)) : fpRoundZ z = z := by
  unfold fpRoundZ
  have he : natLog2 z.natAbs ≤ 52 + t := natLog2_le (by
    have : 52 + t + 1 = 53 + t := by omega
    rw [this]
    exact hlt)
  apply roundToQuantum_exact _ _ (twoPow_pos _)
  rw [twoPow_eq]
  have hle : natLog2 z.natAbs - 52 ≤ t := by omega
  calc ((2 ^ (natLog2 z.natAbs - 52) : ℕ) : ℤ)
      ∣ ((2 ^ t : ℕ) : ℤ) := Int.natCast_dvd_natCast.2 (pow_dvd_pow 2 hle)
    _ = (2 : ℤ) ^ t := by push_cast; ring
    _ ∣ z := hdvd

/-- Converting a fraction `a / 2 ^ j` with `a < 2 ^ 53` and `j ≤ 1074`
to a double is exact. -/
lemma posToFp_exact (a j : ℕ) (hj : j ≤ 1074) (ha : a < 2 ^ 53) :
    posToFp a (2 ^ j) = ((a * 2 ^ (1074 - j) : ℕ) : ℤ) := by
  have hsplit : (2 : ℕ) ^ 1074 = 2 ^ (1074 - j) * 2 ^ j := by
    rw [← pow_add]
    congr 1
    omega
  have hN : a * twoPow 1074 = (a * 2 ^ (1074 - j)) * 2 ^ j := by
    rw [twoPow_eq, hsplit]
    ring
  have hNdiv : a * twoPow 1074 / 2 ^ j = a * 2 ^ (1074 - j) := by
    rw [hN]
    exact Nat.mul_div_cancel _ (Nat.pos_pow_of_pos j (by norm_num))
  have hE : natLog2 (a * 2 ^ (1074 - j)) ≤ 1126 - j := by
    apply natLog2_le
    have h1 : a * 2 ^ (1074 - j) < 2 ^ 53 * 2 ^ (1074 - j) := by
      have hp : 0 < (2 : ℕ) ^ (1074 - j) := Nat.pos_pow_of_pos _ (by norm_num)
      exact Nat.mul_lt_mul_of_lt_of_le ha (le_refl _) hp
    calc a * 2 ^ (1074 - j) < 2 ^ 53 * 2 ^ (1074 - j) := h1
      _ = 2 ^ (53 + (1074 - j)) := by rw [pow_add]
      _ ≤ 2 ^ (1126 - j + 1) := Nat.pow_le_pow_right (by norm_num) (by omega)
  set E := natLog2 (a * 2 ^ (1074 - j)) with hEdef
  have hEe : E - 52 ≤ 1074 - j := by omega
  have hu : (1074 - j) - (E - 52) + (E - 52) = 1074 - j := by omega
  have hQsplit : (2 : ℕ) ^ (1074 - j) = 2 ^ ((1074 - j) - (E - 52)) * 2 ^ (E - 52) := by
    rw [← pow_add, hu]
  have hbQpos : 0 < 2 ^ j * twoPow (E - 52) :=
    Nat.mul_pos (Nat.pos_pow_of_pos _ (by norm_num)) (twoPow_pos _)
  have hfactor : a * twoPow 1074 =
      (a * 2 ^ ((1074 - j) - (E - 52))) * (2 ^ j * twoPow (E - 52)) := by
    rw [twoPow_eq (E - 52), twoPow_eq, hsplit, hQsplit]
    ring
  simp only [posToFp, hNdiv, ← hEdef]
  rw [hfactor, Nat.mul_div_cancel _ hbQpos]
  rw [if_pos]
  · exact congrArg (fun n : ℕ => (n : ℤ))
      (by rw [twoPow_eq (E - 52), hQsplit]; ring)
  · omega

/-- The double stored for a nonnegative dyadic rational with
denominator `2 ^ j`, `j ≤ 1074`, and numerator below `2 ^ 53` is the
rational itself (on the scaled representation). -/
lemma ratToFp_dyadic (q : ℚ) (j : ℕ) (hj : j ≤ 1074) (hden : q.den = 2 ^ j)
    (h0 : 0 ≤ q.num) (hlt : q.num < 2 ^ 53) :
    ratToFp q = (q.num.toNat * 2 ^ (1074 - j) : ℕ) := by
  unfold ratToFp
  rw [if_neg (by omega), hden]
  have hlt' : q.num.toNat < 2 ^ 53 := by
    have hc : ((2 ^ 53 : ℕ) : ℤ) = (2 : ℤ) ^ 53 := by norm_num
    omega
  exact posToFp_exact q.num.toNat j hj hlt'

/-- Scaled-value bridge: under the same dyadic hypotheses, the stored
double denotes exactly `q`, i.e. its scaled integer is `q * 2 ^ 1074`. -/
lemma ratToFp_dyadic_cast (q : ℚ) (j : ℕ) (hj : j ≤ 1074) (hden : q.den = 2 ^ j)
    (h0 : 0 ≤ q.num) (hlt : q.num < 2 ^ 53) :
    ((ratToFp q : ℤ) : ℚ) = q * 2 ^ 1074 := by
  rw [ratToFp_dyadic q j hj hden h0 hlt]
  have hden' : ((q.den : ℚ)) = 2 ^ j := by
    rw [hden]
    push_cast
    ring
  have hq : q = (q.num : ℚ) / 2 ^ j := by
    rw [← hden']
    exact (Rat.num_div_den q).symm
  have h2 : ((2 : ℚ)) ^ j ≠ 0 := pow_ne_zero _ (by norm_num)
  have hsplit : (2 : ℚ) ^ (1074 : ℕ) = 2 ^ (1074 - j) * 2 ^ j := by
    rw [← pow_add]
    congr 1
    omega
  push_cast [Int.toNat_of_nonneg h0]
  conv_rhs => rw [hq, hsplit]
  field_simp
  ring

/-- A left fold of binary64 additions over nonnegative multiples of
`2 ^ 1054` whose total stays below `2 ^ 1106` is exact. -/
lemma foldl_fpAddZ_exact (zs : List ℤ) (s : ℤ)
    (hsd : (2 : ℤ) ^ 1054 ∣ s) (hs0 : 0 ≤ s)
    (hzd : ∀ z ∈ zs, (2 : ℤ) ^ 1054 ∣ z) (hz0 : ∀ z ∈ zs, 0 ≤ z)
    (hub : s + zs.sum ≤ 2 ^ 1106) :
    zs.foldl fpAddZ s = s + zs.sum := by
  induction zs generalizing s with
  | nil => simp
  | cons z zs ih =>
      have hz_nn : 0 ≤ z := hz0 z (List.mem_cons_self z zs)
      have hrest_nn : 0 ≤ zs.sum := List.sum_nonneg (fun x hx => hz0 x (List.mem_cons_of_mem z hx))
      have hsum_cons : (z :: zs).sum = z + zs.sum := List.sum_cons
      have hsz_ub : s + z ≤ 2 ^ 1106 := by
        rw [hsum_cons] at hub
        linarith
      have hadd : fpAddZ s z = s + z := by
        apply fpRoundZ_exact (s + z) 1054 (dvd_add hsd (hzd z (List.mem_cons_self z zs)))
        have hcast : ((2 ^ (53 + 1054) : ℕ) : ℤ) = (2 : ℤ) ^ (53 + 1054) := by
          push_cast
          ring
        have hlt : s + z < (2 : ℤ) ^ (53 + 1054) := by
          calc s + z ≤ 2 ^ 1106 := hsz_ub
            _ < (2 : ℤ) ^ (53 + 1054) := by
                apply pow_lt_pow_right₀ (by norm_num)
                omega
        omega
      rw [List.foldl_cons, hadd]
      rw [ih (s + z) (dvd_add hsd (hzd z (List.mem_cons_self z zs)))
        (by linarith)
        (fun x hx => hzd x (List.mem_cons_of_mem z hx))
        (fun x hx => hz0 x (List.mem_cons_of_mem z hx))
        (by rw [hsum_cons] at hub; linarith)]
      rw [hsum_cons]
      ring

/-- Merging powers of two with literal exponents without evaluating
them. -/
lemma two_pow_add_eq (a b c : ℕ) (h : a + b = c) : (2 : ℤ) ^ a * 2 ^ b = 2 ^ c := by
  rw [← pow_add, h]

/-- C3 (amended): the budget gate compares in binary64 floating-point
arithmetic, not exact decimal arithmetic.  For 11-player teams whose
base prices are in-range dyadic rationals (denominator dividing
`2 ^ 20`, value between 0 and 200 credits — e.g. whole, half or
quarter credits), every step is exact and acceptance coincides with
the exact comparison: the team passes the budget gate iff the exact
sum of base prices is at most 100. -/
theorem c3_budget_float_boundary (sel : List Player)
    (h11 : sel.length = 11)
    (hdy : ∀ p ∈ sel, ∃ j : ℕ, j ≤ 20 ∧ p.base_price.den = 2 ^ j ∧
      0 ≤ p.base_price.num ∧ p.base_price.num ≤ 200 * (p.base_price.den : ℤ)) :
    (budgetAllowsSubmit sel = true ↔ totalCreditsExact sel ≤ 100) := by
  have key : ∀ p ∈ sel,
      (2 : ℤ) ^ 1054 ∣ ratToFp p.base_price ∧ 0 ≤ ratToFp p.base_price ∧
      ratToFp p.base_price ≤ 200 * 2 ^ 1074 ∧
      ((ratToFp p.base_price : ℤ) : ℚ) = p.base_price * 2 ^ 1074 := by
    intro p hp
    obtain ⟨j, hj20, hden, h0, hub⟩ := hdy p hp
    have hj : j ≤ 1074 := by omega
    have hdenZ : ((p.base_price.den : ℤ)) = (2 : ℤ) ^ j := by
      rw [hden]
      push_cast
      ring
    have hden_le : ((p.base_price.den : ℤ)) ≤ 2 ^ 20 := by
      rw [hdenZ]
      exact pow_le_pow_right₀ (by norm_num) hj20
    have hnum_lt : p.base_price.num < 2 ^ 53 := by
      have h20 : (200 : ℤ) * 2 ^ 20 < 2 ^ 53 := by norm_num
      nlinarith [hub, hden_le]
    have heq := ratToFp_dyadic p.base_price j hj hden h0 hnum_lt
    have hnum_le : p.base_price.num ≤ 200 * 2 ^ j := by
      rw [← hdenZ]
      exact hub
    have hpowsplit : (2 : ℤ) ^ j * 2 ^ (1074 - j) = 2 ^ 1074 := by
      rw [← pow_add]
      congr 1
      omega
    refine ⟨?_, ?_, ?_, ratToFp_dyadic_cast p.base_price j hj hden h0 hnum_lt⟩
    · rw [heq]
      have : ((p.base_price.num.toNat * 2 ^ (1074 - j) : ℕ) : ℤ) =
          (p.base_price.num.toNat : ℤ) * 2 ^ (1074 - j) := by
        push_cast
        ring
      rw [this]
      exact Dvd.dvd.mul_left (pow_dvd_pow 2 (by omega)) _
    · rw [heq]
      exact Int.natCast_nonneg _
    · rw [heq]
      have hcast : ((p.base_price.num.toNat * 2 ^ (1074 - j) : ℕ) : ℤ) =
          p.base_price.num * 2 ^ (1074 - j) := by
        push_cast [Int.toNat_of_nonneg h0]
        ring
      rw [hcast]
      calc p.base_price.num * 2 ^ (1074 - j)
          ≤ (200 * 2 ^ j) * 2 ^ (1074 - j) :=
            mul_le_mul_of_nonneg_right hnum_le (by positivity)
        _ = 200 * 2 ^ 1074 := by rw [mul_assoc, hpowsplit]
  have hTC : totalCredits sel =
      (sel.map (fun p => ratToFp p.base_price)).foldl fpAddZ 0 :=
    (List.foldl_map (fun p : Player => ratToFp p.base_price) fpAddZ sel 0).symm
  have hzd : ∀ z ∈ sel.map (fun p => ratToFp p.base_price), (2 : ℤ) ^ 1054 ∣ z := by
    intro z hz
    obtain ⟨p, hp, rfl⟩ := List.mem_map.1 hz
    exact (key p hp).1
  have hz0 : ∀ z ∈ sel.map (fun p => ratToFp p.base_price), 0 ≤ z := by
    intro z hz
    obtain ⟨p, hp, rfl⟩ := List.mem_map.1 hz
    exact (key p hp).2.1
  have hub : (sel.map (fun p => ratToFp p.base_price)).sum ≤ 2 ^ 1106 := by
    have hb : ∀ z ∈ sel.map (fun p => ratToFp p.base_price), z ≤ 200 * 2 ^ 1074 := by
      intro z hz
      obtain ⟨p, hp, rfl⟩ := List.mem_map.1 hz
      exact (key p hp).2.2.1
    have h1 := List.sum_le_card_nsmul _ _ hb
    rw [List.length_map, h11] at h1
    have h2 : (11 : ℕ) • ((200 : ℤ) * 2 ^ 1074) = 2200 * 2 ^ 1074 := by
      rw [nsmul_eq_mul, ← mul_assoc,
        show (((11 : ℕ) : ℤ) * 200) = 2200 from by norm_num]
    rw [h2] at h1
    calc (sel.map (fun p => ratToFp p.base_price)).sum
        ≤ 2200 * 2 ^ 1074 := h1
      _ ≤ 2 ^ 32 * 2 ^ 1074 :=
          mul_le_mul_of_nonneg_right (show (2200 : ℤ) ≤ 2 ^ 32 from by norm_num)
            (by positivity)
      _ = 2 ^ 1106 := two_pow_add_eq 32 1074 1106 (by norm_num)
  have hfold : (sel.map (fun p => ratToFp p.base_price)).foldl fpAddZ 0 =
      (sel.map (fun p => ratToFp p.base_price)).sum := by
    have := foldl_fpAddZ_exact (sel.map (fun p => ratToFp p.base_price)) 0
      (dvd_zero _) (le_refl 0) hzd hz0 (by simpa using hub)
    simpa using this
  have hBase : posToFp 100 1 = ((100 * 2 ^ 1074 : ℕ) : ℤ) := by
    have h := posToFp_exact 100 0 (by norm_num) (by norm_num)
    rw [pow_zero] at h
    rw [Nat.sub_zero] at h
    exact h
  have hsum_nn : 0 ≤ (sel.map (fun p => ratToFp p.base_price)).sum :=
    List.sum_nonneg hz0
  have hc100 : ((100 * 2 ^ 1074 : ℕ) : ℤ) = 100 * (2 : ℤ) ^ 1074 := by
    push_cast
    ring
  have hCL : creditsLeft sel =
      ((100 * 2 ^ 1074 : ℕ) : ℤ) - (sel.map (fun p => ratToFp p.base_price)).sum := by
    unfold creditsLeft
    rw [hTC, hfold, hBase]
    unfold fpSubZ
    apply fpRoundZ_exact _ 1054
    · apply dvd_sub
      · rw [hc100, ← two_pow_add_eq 1054 20 1074 (by norm_num)]
        exact Dvd.dvd.mul_left (dvd_mul_right _ _) 100
      · exact List.dvd_sum hzd
    · have hcast1 : ((100 * 2 ^ 1074 : ℕ) : ℤ) ≤ 2 ^ 1081 := by
        rw [hc100, ← two_pow_add_eq 7 1074 1081 (by norm_num)]
        exact mul_le_mul_of_nonneg_right (show (100 : ℤ) ≤ 2 ^ 7 from by norm_num)
          (by positivity)
      have hcast0 : (0 : ℤ) ≤ ((100 * 2 ^ 1074 : ℕ) : ℤ) := Int.natCast_nonneg _
      have hp1 : (2 : ℤ) ^ 1081 < 2 ^ (53 + 1054) :=
        pow_lt_pow_right₀ (by norm_num) (by norm_num)
      have hp2 : (2 : ℤ) ^ 1106 < 2 ^ (53 + 1054) :=
        pow_lt_pow_right₀ (by norm_num) (by norm_num)
      have hc : ((2 ^ (53 + 1054) : ℕ) : ℤ) = (2 : ℤ) ^ (53 + 1054) := by push_cast; ring
      omega
  have hcastSum : (((sel.map (fun p => ratToFp p.base_price)).sum : ℤ) : ℚ) =
      totalCreditsExact sel * 2 ^ 1074 := by
    have h1 := map_list_sum (Int.castRingHom ℚ) (sel.map (fun p => ratToFp p.base_price))
    simp only [Int.coe_castRingHom] at h1
    rw [h1, List.map_map]
    have h2 : (sel.map ((fun z : ℤ => (z : ℚ)) ∘ (fun p => ratToFp p.base_price))) =
        sel.map (fun p => p.base_price * 2 ^ 1074) :=
      List.map_congr_left (fun p hp => (key p hp).2.2.2)
    rw [h2]
    unfold totalCreditsExact
    exact List.sum_map_mul_right sel Player.base_price ((2 : ℚ) ^ 1074)
  have hiff1 : budgetAllowsSubmit sel = true ↔ ¬(creditsLeft sel < 0) := by
    unfold budgetAllowsSubmit
    simp
  rw [hiff1, hCL, not_lt, sub_nonneg]
  rw [show ((sel.map (fun p => ratToFp p.base_price)).sum ≤ ((100 * 2 ^ 1074 : ℕ) : ℤ)) ↔
      ((((sel.map (fun p => ratToFp p.base_price)).sum : ℤ) : ℚ) ≤
        ((((100 * 2 ^ 1074 : ℕ) : ℤ)) : ℚ)) from Int.cast_le.symm]
  rw [hcastSum]
  have h3 : ((((100 * 2 ^ 1074 : ℕ) : ℤ)) : ℚ) = 100 * 2 ^ 1074 := by push_cast; ring
  rw [h3]
  exact mul_le_mul_right (by positivity)

/-- The eleven decimal base prices of the C3 counterexample: their
exact decimal sum is exactly 100.0, but the binary64 left fold
computed by the frontend exceeds 100. -/
def selCex : List Player :=
  [mkPl 1 (mkRat 52 10), mkPl 2 (mkRat 102 10), mkPl 3 (mkRat 43 10),
   mkPl 4 (mkRat 89 10), mkPl 5 (mkRat 95 10), mkPl 6 (mkRat 117 10),
   mkPl 7 4, mkPl 8 (mkRat 97 10), mkPl 9 (mkRat 74 10),
   mkPl 10 (mkRat 69 10), mkPl 11 (mkRat 222 10)]

set_option maxRecDepth 1000000 in
/-- Counterexample to C3 as stated: a team of 11 players whose base
credit costs sum to exactly 100.0 in exact decimal arithmetic is
nevertheless rejected by the budget gate, because the binary64 fold
rounds above 100 (`creditsLeft` evaluates to `-2 ^ (-46)`). -/
theorem c3_counterexample :
    totalCreditsExact selCex = 100 ∧ budgetAllowsSubmit selCex = false := by
  constructor
  · norm_num [totalCreditsExact, selCex, mkPl, Rat.mkRat_eq_div]
  · decide

/-- Witness for C3 (amended) at a concrete input: a whole-credit team
summing to 98 passes the budget gate. -/
theorem c3_witness : budgetAllowsSubmit rosterA = true :=
  (c3_budget_float_boundary rosterA (by decide)
    (by
      intro p hp
      fin_cases hp <;> exact ⟨0, by decide⟩)).mpr
    (by norm_num [totalCreditsExact, rosterA, mkPl])

end CF
